import Mathlib

/-!
Verification of the human-browser repository core: the in-page interaction
engine (content script, `extension/content-script.js`), the service worker,
and the WebSocket broker (`lib/server.js`).

Shallow embedding conventions:
- JS numbers are modelled as `ℚ` where only finite values occur, and as
  `JNum` (finite / not-finite) where `Number.isFinite` matters.
- DOM elements are modelled as records of exactly the observables the code
  reads (`getComputedStyle`, `getBoundingClientRect`, attributes, classList,
  `offsetParent`, `closest`).  Element identity is an abstract `nodeRef`.
- Asynchronous steps whose outcome depends on the live page (scrolling,
  bezier cursor motion, think-time re-measurement) are abstracted into a
  `ClickEnv` record of their observable outcomes; the control flow around
  them is translated line by line from the source.
-/

namespace HumanBrowser

/-- JS word character, as in the regex class `\w` = `[A-Za-z0-9_]`. -/
def isWordChar (c : Char) : Bool :=
  (('a' ≤ c && c ≤ 'z') || ('A' ≤ c && c ≤ 'Z') || ('0' ≤ c && c ≤ '9') || c = '_')

/-- ASCII lower-casing, as JS case-insensitive regex matching uses on ASCII. -/
def asciiLower (c : Char) : Char :=
  if 'A' ≤ c && c ≤ 'Z' then Char.ofNat (c.toNat + 32) else c

/-- The alternatives of the honeypot class regex
`/\b(ghost|sr-only|visually-hidden|trap|honey|offscreen|off-screen)\b/i`. -/
def honeypotClassWords : List (List Char) :=
  ["ghost".data, "sr-only".data, "visually-hidden".data, "trap".data,
   "honey".data, "offscreen".data, "off-screen".data]

/-- Pattern `pat` occurs at the front of `s` (case-insensitively). -/
def matchesAt : List Char → List Char → Bool
  | [], _ => true
  | _ :: _, [] => false
  | p :: ps, c :: cs => (asciiLower p = asciiLower c) && matchesAt ps cs

/-- A word-boundary-delimited, case-insensitive occurrence of `pat` at the
front of `s`, given whether the previous character (if any) is a word
character.  The boundary after the match holds when the remainder starts
with a non-word character or is empty. -/
def boundedMatchHere (prevIsWord : Bool) (pat s : List Char) : Bool :=
  !prevIsWord && matchesAt pat s &&
    (match s.drop pat.length with
     | [] => true
     | c :: _ => !isWordChar c)

/-- Scan `s` for a `\b pat \b` occurrence (case-insensitive). -/
def boundedSearch (pat : List Char) : Bool → List Char → Bool
  | _, [] => pat = []
  | prevIsWord, c :: cs =>
    boundedMatchHere prevIsWord pat (c :: cs) || boundedSearch pat (isWordChar c) cs

/-- The test `/\b(ghost|sr-only|visually-hidden|trap|honey|offscreen|off-screen)\b/i.test(s)`. -/
def honeypotClassRegexTest (s : String) : Bool :=
  honeypotClassWords.any fun pat => boundedSearch pat false s.data

/-- The `getBoundingClientRect()` result. -/
structure Rect where
  x : ℚ
  y : ℚ
  w : ℚ
  h : ℚ
deriving DecidableEq, Repr

/-- A DOM element, restricted to the observables the interaction engine
reads.  `nodeRef` is an abstract identity; `closest*` fields record which
selectors / classes / ids match the element itself or an ancestor (the
semantics of `el.closest`), and `matchesSelectors` which selectors match
the element itself (`el.matches`). -/
structure Elem where
  nodeRef : ℕ
  tagName : String
  closestSvg : Bool
  attrs : List (String × String)
  classList : List String
  idAttr : String
  offsetParentNull : Bool
  display : String
  opacity : ℚ
  visibility : String
  rect : Rect
  matchesSelectors : List String
  closestSelectors : List String
  closestClasses : List String
  closestIds : List String
deriving DecidableEq, Repr

/-- DOM `el.getAttribute(name)` (null modelled as `none`). -/
def Elem.getAttribute (el : Elem) (name : String) : Option String :=
  (el.attrs.find? fun p => p.1 = name).map Prod.snd

/-- DOM `el.hasAttribute(name)`. -/
def Elem.hasAttribute (el : Elem) (name : String) : Bool :=
  (el.getAttribute name).isSome

/-- The string `Array.from(el.classList).join(" ")`. -/
def Elem.classStr (el : Elem) : String :=
  String.intercalate " " el.classList

/-- Function `checkHoneypot` from the content script: built-in trap / ghost element
detection, first match wins.  Returns the refusal reason, `none` when safe.
(The human-readable `detail` accompanying some reasons is not modelled.) -/
def checkHoneypot (el : Elem) : Option String :=
  -- SVG elements — not clickable targets
  let isSvg := el.tagName = "svg" || el.tagName = "SVG" || el.closestSvg
  if isSvg then some "svg-element" else
  let hasDisplayContents :=
    el.getAttribute "data-display-contents" = some "true" ||
    el.display = "contents"
  -- Aria-hidden
  if el.getAttribute "aria-hidden" = some "true" then some "aria-hidden" else
  -- No offsetParent (hidden), unless display:contents
  if !hasDisplayContents && el.offsetParentNull then some "no-offsetParent" else
  -- Honeypot class patterns
  if honeypotClassRegexTest el.classStr then some "honeypot-class" else
  -- CSS checks
  if el.opacity = 0 then some "opacity-zero" else
  if el.visibility = "hidden" then some "visibility-hidden" else
  -- Sub-pixel elements (tracking pixels, invisible traps)
  if el.rect.w < 5 || el.rect.h < 5 then some "sub-pixel" else
  none

/-- The trap-detection stage of `actionHumanClick`: `checkHoneypot`
followed by the zero-bounding-box validation that the pipeline performs
right after it. -/
def humanClickTrapStage (el : Elem) : Option String :=
  match checkHoneypot el with
  | some r => some r
  | none =>
    if el.rect.w = 0 ∧ el.rect.h = 0 then some "no-bounding-box" else none

/-- Trap detection exactly as the claim words it: first match wins over
svg-subtree, aria-hidden, no offset parent while computed display is not
`contents`, honeypot class regex, zero opacity, hidden visibility,
sub-pixel box, zero box. -/
def specTrapDetectClaimed (el : Elem) : Option String :=
  if el.tagName = "svg" || el.tagName = "SVG" || el.closestSvg then some "svg-element" else
  if el.getAttribute "aria-hidden" = some "true" then some "aria-hidden" else
  if el.offsetParentNull && !(el.display = "contents") then some "no-offsetParent" else
  if honeypotClassRegexTest el.classStr then some "honeypot-class" else
  if el.opacity = 0 then some "opacity-zero" else
  if el.visibility = "hidden" then some "visibility-hidden" else
  if el.rect.w < 5 || el.rect.h < 5 then some "sub-pixel" else
  if el.rect.w = 0 ∧ el.rect.h = 0 then some "no-bounding-box" else
  none

/-- Trap detection as the claim must be amended: the `no-offsetParent` rule
additionally requires that the element does not carry the attribute
`data-display-contents="true"` (the code extends the display-contents
exemption to that attribute). -/
def specTrapDetectAmended (el : Elem) : Option String :=
  if el.tagName = "svg" || el.tagName = "SVG" || el.closestSvg then some "svg-element" else
  if el.getAttribute "aria-hidden" = some "true" then some "aria-hidden" else
  if el.offsetParentNull && !(el.display = "contents") &&
     !(el.getAttribute "data-display-contents" = some "true") then some "no-offsetParent" else
  if honeypotClassRegexTest el.classStr then some "honeypot-class" else
  if el.opacity = 0 then some "opacity-zero" else
  if el.visibility = "hidden" then some "visibility-hidden" else
  if el.rect.w < 5 || el.rect.h < 5 then some "sub-pixel" else
  if el.rect.w = 0 ∧ el.rect.h = 0 then some "no-bounding-box" else
  none

set_option maxHeartbeats 2000000 in
theorem trapStage_eq_amended (el : Elem) :
    humanClickTrapStage el = specTrapDetectAmended el := by
  unfold humanClickTrapStage checkHoneypot specTrapDetectAmended
  by_cases h1 : (el.tagName = "svg" || el.tagName = "SVG" || el.closestSvg) = true <;>
  by_cases h2 : el.getAttribute "aria-hidden" = some "true" <;>
  by_cases h3 : el.getAttribute "data-display-contents" = some "true" <;>
  by_cases h4 : el.display = "contents" <;>
  by_cases h5 : el.offsetParentNull = true <;>
  by_cases h6 : honeypotClassRegexTest el.classStr = true <;>
  by_cases h7 : el.opacity = 0 <;>
  by_cases h8 : el.visibility = "hidden" <;>
  by_cases h9 : (el.rect.w < 5 ∨ el.rect.h < 5) <;>
  simp_all <;>
  simp [show ¬(el.rect.w < 5 ∨ el.rect.h < 5) by push_neg; exact h9]

/-- The `avoid` ruleset: elements interaction must refuse. -/
structure AvoidRuleset where
  selectors : List String
  classes : List String
  ids : List String
  attributes : List (String × String)
deriving DecidableEq, Repr

/-- Function `checkAvoid` from the content script: custom element filtering for
`human.*` commands.  Returns the matched rule string, `none` when not
avoided.  (The try/catch around invalid CSS selectors is not modelled;
selectors are assumed syntactically valid.) -/
def checkAvoid (el : Elem) (avoid : Option AvoidRuleset) : Option String :=
  match avoid with
  | none => none
  | some av =>
    -- Check CSS selectors (el.matches or el.closest)
    match av.selectors.findSome? (fun sel =>
        if el.matchesSelectors.contains sel || el.closestSelectors.contains sel then
          some ("selector:" ++ sel)
        else none) with
    | some r => some r
    | none =>
    -- Check class names (incl. ancestors)
    match av.classes.findSome? (fun cls =>
        if el.classList.contains cls then some ("class:" ++ cls)
        else if el.closestClasses.contains cls then some ("class:" ++ cls)
        else none) with
    | some r => some r
    | none =>
    -- Check IDs (incl. ancestors)
    match av.ids.findSome? (fun i =>
        if el.idAttr = i then some ("id:" ++ i)
        else if el.closestIds.contains i then some ("id:" ++ i)
        else none) with
    | some r => some r
    | none =>
    -- Check attributes
    av.attributes.findSome? (fun p =>
        if p.2 = "*" then
          if el.hasAttribute p.1 then some ("attr:" ++ p.1) else none
        else if el.getAttribute p.1 = some p.2 then
          some ("attr:" ++ p.1 ++ "=" ++ p.2)
        else none)

/-- An observable effect dispatched by the engine on the page. -/
inductive Ev where
  | mouse (name : String) (target : ℕ) (x y : ℚ) (detail : ℕ)
  | focus (target : ℕ)
  | selectAll (target : ℕ)
deriving DecidableEq, Repr

/-- The live page, reduced to the query the click dispatch makes. -/
structure Page where
  elementFromPoint : ℚ → ℚ → Option Elem

/-- Result of `actionClick`: the dispatched events, and whether the
function ran to completion returning clicked true (`confirmed = false`
models the bare `return` — JS `undefined` — when nothing is under the
cursor). -/
structure ClickDispatchResult where
  events : List Ev
  confirmed : Bool
deriving Repr

/-- The `for (let i = 1; i <= clickCount; i++)` loop of `actionClick`,
recursing on the number of iterations still to run (`remaining`, so the
loop for `i = 1..n` is `actionClickLoop el page x y 1 n`): per iteration,
look up `document.elementFromPoint`, abort if empty, otherwise dispatch
mousedown (focusing the original element on the first iteration), mouseup,
click, and dblclick on the second iteration. -/
def actionClickLoop (el : Elem) (page : Page) (x y : ℚ) :
    (i : ℕ) → (remaining : ℕ) → List Ev × Bool
  | _, 0 => ([], true)
  | i, remaining + 1 =>
    match page.elementFromPoint x y with
    | none => ([], false)
    | some atPoint =>
      let evs :=
        [Ev.mouse "mousedown" atPoint.nodeRef x y i]
        ++ (if i = 1 then [Ev.focus el.nodeRef] else [])
        ++ [Ev.mouse "mouseup" atPoint.nodeRef x y i,
            Ev.mouse "click" atPoint.nodeRef x y i]
        ++ (if i = 2 then [Ev.mouse "dblclick" atPoint.nodeRef x y i] else [])
      let rest := actionClickLoop el page x y (i + 1) remaining
      (evs ++ rest.1, rest.2)

/-- Function `actionClick` from the content script (the engine handler for `dom.click` /
dispatch step of `human.click`).  `cursorX || rect.x + rect.width / 2`
makes a zero cursor coordinate fall back to the element centre;
`params.clickCount || 1` makes 0 / absent default to one click. -/
def actionClick (el : Elem) (page : Page) (cursorX cursorY : ℚ)
    (clickCountParam : Option ℕ) : ClickDispatchResult :=
  let rect := el.rect
  let x := if cursorX = 0 then rect.x + rect.w / 2 else cursorX
  let y := if cursorY = 0 then rect.y + rect.h / 2 else cursorY
  let clickCount := match clickCountParam with
    | some k => if k = 0 then 1 else k
    | none => 1
  let run := actionClickLoop el page x y 1 clickCount
  if run.2 then
    -- Triple-click: select all text in input/textarea
    let selEvs :=
      if clickCount ≥ 3 && (el.tagName = "INPUT" || el.tagName = "TEXTAREA") then
        [Ev.selectAll el.nodeRef]
      else []
    { events := run.1 ++ selEvs, confirmed := true }
  else
    { events := run.1, confirmed := false }

/-- The `config` sub-object of `human.click` params (fields checked with
`!== undefined` in the source, hence `Option`). -/
structure ClickConfigParams where
  thinkDelayMin : Option ℚ
  thinkDelayMax : Option ℚ
  maxShiftPx : Option ℚ
deriving DecidableEq, Repr

/-- Params of `human.click` relevant after element resolution. -/
structure HumanClickParams where
  avoid : Option AvoidRuleset
  config : ClickConfigParams
  clickCount : Option ℕ
deriving DecidableEq, Repr

/-- Outcomes of the asynchronous / randomised middle of the pipeline
(scroll into view, bezier cursor motion, think-time), abstracted as data:
`visibleAfterScroll` is the verdict of `ensureElementVisible`,
`rectAfterScroll` the rect it returns, `moveEvents` the mousemove trail of
`actionMouseMoveTo`, `cursorAfterMove` the cursor position it leaves, and
`rectAfterThink` the re-measured rect after the think delay. -/
structure ClickEnv where
  visibleAfterScroll : Bool
  rectAfterScroll : Rect
  moveEvents : List Ev
  cursorAfterMove : ℚ × ℚ
  rectAfterThink : Rect
deriving Repr

/-- Observable outcome of `actionHumanClick`: the result object (reduced
to `clicked` and `reason`; rule/detail strings are not modelled) and the
events dispatched on the page along the way. -/
structure ClickOutcome where
  clicked : Bool
  reason : Option String
  events : List Ev
deriving DecidableEq, Repr

/-- Function `actionHumanClick` from the content script: avoid check, honeypot
detection, bounding-box validation, scroll into view, bezier move,
think-time, disappear/shift re-validation, then `actionClick` dispatch
(whose return value the source ignores, returning clicked true). -/
def actionHumanClick (el : Elem) (page : Page) (params : HumanClickParams)
    (env : ClickEnv) : ClickOutcome :=
  let maxShift := params.config.maxShiftPx.getD 50
  -- Check custom avoid rules
  match checkAvoid el params.avoid with
  | some _rule => { clicked := false, reason := some "avoided", events := [] }
  | none =>
  -- Built-in honeypot detection
  match checkHoneypot el with
  | some reason => { clicked := false, reason := some reason, events := [] }
  | none =>
  -- Bounding box validation
  if el.rect.w = 0 ∧ el.rect.h = 0 then
    { clicked := false, reason := some "no-bounding-box", events := [] }
  -- Scroll element into comfortable view
  else if env.visibleAfterScroll = false then
    { clicked := false, reason := some "off-screen", events := [] }
  else
    let rect := env.rectAfterScroll
    let rectAfter := env.rectAfterThink
    -- Element shift detection — did it move during think time?
    if rectAfter.w = 0 ∧ rectAfter.h = 0 then
      { clicked := false, reason := some "element-disappeared", events := env.moveEvents }
    else if |rectAfter.x - rect.x| > maxShift ∨ |rectAfter.y - rect.y| > maxShift then
      { clicked := false, reason := some "element-shifted", events := env.moveEvents }
    else
      -- Click dispatch (mousedown → mouseup → click)
      let d := actionClick el page env.cursorAfterMove.1 env.cursorAfterMove.2
        params.clickCount
      { clicked := true, reason := none, events := env.moveEvents ++ d.events }

/-- A visible element with `offsetParent === null` whose computed display
is `block` (not `contents`) but which carries the attribute
`data-display-contents="true"` — the escape hatch `checkHoneypot` honours
and the claim omits. -/
def displayContentsHackEl : Elem :=
  { nodeRef := 1, tagName := "DIV", closestSvg := false,
    attrs := [("data-display-contents", "true")],
    classList := ["btn"], idAttr := "",
    offsetParentNull := true, display := "block", opacity := 1,
    visibility := "visible", rect := ⟨100, 100, 120, 40⟩,
    matchesSelectors := [], closestSelectors := [],
    closestClasses := [], closestIds := [] }

/-- A page with nothing under any point (irrelevant to the outcomes used). -/
def emptyPage : Page := { elementFromPoint := fun _ _ => none }

/-- Params with no avoid rules and all config defaults. -/
def defaultClickParams : HumanClickParams :=
  { avoid := none, config := ⟨none, none, none⟩, clickCount := none }

/-- A benign environment: scrolling finds the element in view, the rect
never changes, the cursor lands at (110, 110), no move events recorded. -/
def benignEnv : ClickEnv :=
  { visibleAfterScroll := true, rectAfterScroll := ⟨100, 100, 120, 40⟩,
    moveEvents := [], cursorAfterMove := (110, 110),
    rectAfterThink := ⟨100, 100, 120, 40⟩ }

/-- C1 (counterexample): on `displayContentsHackEl` the claimed trap order
demands refusal `no-offsetParent`, but the trap stage of the code passes the
element and the pipeline clicks it. -/
theorem humanClick_trapDetection_claim_counterexample :
    specTrapDetectClaimed displayContentsHackEl = some "no-offsetParent" ∧
    humanClickTrapStage displayContentsHackEl = none ∧
    (actionHumanClick displayContentsHackEl emptyPage defaultClickParams benignEnv).clicked
      = true := by
  refine ⟨by decide, by decide, ?_⟩
  norm_num [actionHumanClick, checkAvoid, checkHoneypot, displayContentsHackEl,
    benignEnv, defaultClickParams, Elem.getAttribute, Elem.classStr,
    honeypotClassRegexTest, honeypotClassWords, boundedSearch, boundedMatchHere,
    matchesAt, isWordChar, asciiLower]
  decide

/-- C1 (amended): for every element targeted by `human.click` (and
`dom.click`, which runs the same handler) that passes the avoid check, the
pipeline refuses with exactly the first matching trap reason of the
claimed order, provided the `no-offsetParent` rule is amended to exempt
elements carrying `data-display-contents="true"` as well as computed
`display: contents`; when no trap rule matches, the pipeline never
produces a trap reason. -/
theorem humanClick_trapDetection_order (el : Elem) (page : Page)
    (params : HumanClickParams) (env : ClickEnv)
    (hAvoid : checkAvoid el params.avoid = none) :
    (∀ r, specTrapDetectAmended el = some r →
      actionHumanClick el page params env =
        { clicked := false, reason := some r, events := [] }) ∧
    (specTrapDetectAmended el = none →
      (actionHumanClick el page params env).reason = none ∨
      (actionHumanClick el page params env).reason ∈
        [some "off-screen", some "element-disappeared", some "element-shifted"]) := by
  have hts := trapStage_eq_amended el
  rw [← hts]
  unfold humanClickTrapStage
  constructor
  · intro r hr
    cases hh : checkHoneypot el with
    | some r2 =>
      rw [hh] at hr
      cases hr
      simp [actionHumanClick, hAvoid, hh]
    | none =>
      rw [hh] at hr
      by_cases hz : el.rect.w = 0 ∧ el.rect.h = 0
      · rw [if_pos hz] at hr
        cases hr
        simp [actionHumanClick, hAvoid, hh, hz]
      · rw [if_neg hz] at hr
        exact Option.noConfusion hr
  · intro hr
    cases hh : checkHoneypot el with
    | some r2 => rw [hh] at hr; exact Option.noConfusion hr
    | none =>
      rw [hh] at hr
      by_cases hz : el.rect.w = 0 ∧ el.rect.h = 0
      · rw [if_pos hz] at hr; exact Option.noConfusion hr
      · by_cases hv : env.visibleAfterScroll = false
        · simp [actionHumanClick, hAvoid, hh, hz, hv]
        · by_cases hd : env.rectAfterThink.w = 0 ∧ env.rectAfterThink.h = 0
          · simp [actionHumanClick, hAvoid, hh, hz, hv, hd]
          · by_cases hs : |env.rectAfterThink.x - env.rectAfterScroll.x| >
                params.config.maxShiftPx.getD 50 ∨
                |env.rectAfterThink.y - env.rectAfterScroll.y| >
                params.config.maxShiftPx.getD 50
            · simp [actionHumanClick, hAvoid, hh, hz, hv, hd, hs]
            · simp [actionHumanClick, hAvoid, hh, hz, hv, hd, hs]

/-- C1 witness: the amended theorem applied to a concrete aria-hidden
element, yielding the `aria-hidden` refusal with no events dispatched. -/
theorem humanClick_trapDetection_order_witness :
    actionHumanClick
      { displayContentsHackEl with attrs := [("aria-hidden", "true")] }
      emptyPage defaultClickParams benignEnv =
      { clicked := false, reason := some "aria-hidden", events := [] } :=
  (humanClick_trapDetection_order
    { displayContentsHackEl with attrs := [("aria-hidden", "true")] }
    emptyPage defaultClickParams benignEnv (by decide)).1 "aria-hidden" (by decide)

/-- C2: in the dispatch step, with a nonzero cursor position (so the
`cursorX || centre` fallback is inert), `actionClick` queries
`document.elementFromPoint` at the cursor coordinates; when nothing is
there it dispatches no events and returns no confirmation (the bare JS
`return`), and when an element is found there a single click dispatches
mousedown, mouseup and click on that element — not on the resolved target
— with the original target focused right after the first mousedown. -/
theorem actionClick_dispatch (el : Elem) (page : Page) (cx cy : ℚ)
    (hx : cx ≠ 0) (hy : cy ≠ 0) :
    (∀ cc : Option ℕ, page.elementFromPoint cx cy = none →
      actionClick el page cx cy cc = { events := [], confirmed := false }) ∧
    (∀ t, page.elementFromPoint cx cy = some t →
      actionClick el page cx cy none =
        { events := [Ev.mouse "mousedown" t.nodeRef cx cy 1, Ev.focus el.nodeRef,
                     Ev.mouse "mouseup" t.nodeRef cx cy 1,
                     Ev.mouse "click" t.nodeRef cx cy 1],
          confirmed := true }) := by
  constructor
  · intro cc hnone
    match cc with
    | none => simp [actionClick, actionClickLoop, hx, hy, hnone]
    | some 0 => simp [actionClick, actionClickLoop, hx, hy, hnone]
    | some (k + 1) => simp [actionClick, actionClickLoop, hx, hy, hnone]
  · intro t ht
    simp [actionClick, actionClickLoop, hx, hy, ht]

/-- A hidden button at (100, 100)–(220, 140). -/
def hiddenButtonEl : Elem :=
  { displayContentsHackEl with nodeRef := 1, tagName := "BUTTON", attrs := [] }

/-- A semi-transparent overlay covering the same coordinates. -/
def overlayEl : Elem :=
  { displayContentsHackEl with nodeRef := 2, attrs := [], offsetParentNull := false }

/-- A page on which the overlay is what sits under the point (110, 120). -/
def overlayPage : Page :=
  { elementFromPoint := fun x y =>
      if x = 110 ∧ y = 120 then some overlayEl else none }

theorem actionClick_dispatch_witness :
    actionClick hiddenButtonEl overlayPage 110 120 none =
      { events := [Ev.mouse "mousedown" 2 110 120 1, Ev.focus 1,
                   Ev.mouse "mouseup" 2 110 120 1, Ev.mouse "click" 2 110 120 1],
        confirmed := true } :=
  (actionClick_dispatch hiddenButtonEl overlayPage 110 120
    (by decide) (by decide)).2 overlayEl (by decide)

/-- The `onMessage` dispatch of the content script, restricted to the two
click cases: `case "dom.click"` and `case "human.click"` both invoke
`actionHumanClick`. -/
def onMessageClickCase (action : String) (el : Elem) (page : Page)
    (params : HumanClickParams) (env : ClickEnv) : Option ClickOutcome :=
  match action with
  | "dom.click" => some (actionHumanClick el page params env)
  | "human.click" => some (actionHumanClick el page params env)
  | _ => none

/-- The non-human synthetic click form, following the words of the spec
(`el.click()` / a bare `dispatchEvent`): a single click event on the
resolved element at its centre, no avoid check, no trap detection, no
motion.  Defined only to be compared against the behaviour of
`dom.click`. -/
def specSyntheticClick (el : Elem) : ClickOutcome :=
  { clicked := true, reason := none,
    events := [Ev.mouse "click" el.nodeRef (el.rect.x + el.rect.w / 2)
                 (el.rect.y + el.rect.h / 2) 1] }

/-- An aria-hidden trap element (as planted by anti-bot tooling). -/
def ariaHiddenEl : Elem :=
  { displayContentsHackEl with attrs := [("aria-hidden", "true")] }

/-- C8: `dom.click` and `human.click` run the same pipeline — the
dispatcher maps both actions to `actionHumanClick`, so their observable
behaviour agrees on every input — and the behaviour of `dom.click` is not
the synthetic form: on an aria-hidden element `dom.click` refuses with no
event dispatched while the synthetic form clicks it. -/
theorem domClick_is_humanClick :
    (∀ (el : Elem) (page : Page) (params : HumanClickParams) (env : ClickEnv),
      onMessageClickCase "dom.click" el page params env =
        onMessageClickCase "human.click" el page params env) ∧
    onMessageClickCase "dom.click" ariaHiddenEl emptyPage defaultClickParams benignEnv =
      some { clicked := false, reason := some "aria-hidden", events := [] } ∧
    onMessageClickCase "dom.click" ariaHiddenEl emptyPage defaultClickParams benignEnv ≠
      some (specSyntheticClick ariaHiddenEl) := by
  refine ⟨fun el page params env => rfl, by decide, by decide⟩

/-! ## Broker (`lib/server.js`)

The file `lib/server.js` consistent with the rest of the repository
(`index.js` and the server tests import `initDebugLog` / `debugLog` from
it) is the one that clamps `params.timeout`; an older copy without the
clamp also circulates but is not what the entry point loads. -/

/-- A JS number as seen by `Number(x)`: either a finite value or one of
the non-finite results (NaN, ±Infinity — which one does not matter to the
code, which only ever asks `Number.isFinite`). -/
inductive JNum where
  | num (q : ℚ)
  | notFinite
deriving DecidableEq, Repr

/-- JS `Number.isFinite`. -/
def JNum.isFinite : JNum → Bool
  | .num _ => true
  | .notFinite => false

/-- The timeout computation in the broker function `send`:
`Number.isFinite(rawTimeout) && rawTimeout > 0
  ? Math.min(Math.max(rawTimeout, MIN_TIMEOUT_MS), MAX_TIMEOUT_MS)
  : DEFAULT_TIMEOUT_MS` with `MIN = 100`, `MAX = 60000`, `DEFAULT = 30000`.
The argument is `Number(params.timeout)` (`notFinite` when the field is
absent or not numeric). -/
def effectiveTimeout (rawTimeout : JNum) : ℚ :=
  match rawTimeout with
  | .num q => if 0 < q then min (max q 100) 60000 else 30000
  | .notFinite => 30000

/-- The duration the broker arms its `setTimeout` with:
`effectiveTimeout + 2000` (the 2 s buffer that lets engine-internal
timeouts resolve first). -/
def brokerDeadline (rawTimeout : JNum) : ℚ :=
  effectiveTimeout rawTimeout + 2000

/-- C3: for every relayed command, a positive finite `params.timeout` is
clamped to [100 ms, 60000 ms] and anything else defaults to 30000 ms, so
the nominal deadline always lies in [100, 60000] and the armed broker
deadline (nominal + 2 s buffer) always lies in [100, 62000]. -/
theorem broker_timeout_clamped (t : JNum) :
    (∀ q : ℚ, t = .num q → 0 < q → effectiveTimeout t = min (max q 100) 60000) ∧
    ((t.isFinite = false ∨ ∀ q : ℚ, t = .num q → q ≤ 0) →
      effectiveTimeout t = 30000) ∧
    100 ≤ effectiveTimeout t ∧ effectiveTimeout t ≤ 60000 ∧
    100 ≤ brokerDeadline t ∧ brokerDeadline t ≤ 62000 := by
  have hlo : ∀ u : JNum, 100 ≤ effectiveTimeout u := by
    intro u
    obtain q | _ := u
    · simp only [effectiveTimeout]
      rcases lt_or_le 0 q with hq | hq
      · rw [if_pos hq]
        exact le_min (le_max_right q 100) (by norm_num)
      · rw [if_neg (not_lt.mpr hq)]; norm_num
    · norm_num [effectiveTimeout]
  have hhi : ∀ u : JNum, effectiveTimeout u ≤ 60000 := by
    intro u
    obtain q | _ := u
    · simp only [effectiveTimeout]
      rcases lt_or_le 0 q with hq | hq
      · rw [if_pos hq]
        exact min_le_right _ _
      · rw [if_neg (not_lt.mpr hq)]; norm_num
    · norm_num [effectiveTimeout]
  refine ⟨fun q2 hq2 hpos => ?_, fun h => ?_, hlo t, hhi t, ?_, ?_⟩
  · cases hq2; simp [effectiveTimeout, hpos]
  · obtain q | _ := t
    · rcases h with h | h
      · simp [JNum.isFinite] at h
      · have := h q rfl
        simp [effectiveTimeout, not_lt.mpr this]
    · rfl
  · have := hlo t; unfold brokerDeadline; linarith
  · have := hhi t; unfold brokerDeadline; linarith

/-- C3 witness: a request asking for 100000 ms is clamped to 60000 ms, so
the armed deadline is 62000 ms. -/
theorem broker_timeout_clamped_witness :
    effectiveTimeout (.num 100000) = 60000 ∧ brokerDeadline (.num 100000) = 62000 := by
  have h := (broker_timeout_clamped (.num 100000)).1 100000 rfl (by norm_num)
  constructor
  · rw [h]; norm_num
  · unfold brokerDeadline; rw [h]; norm_num

/-- A pending-request record the broker keeps per relayed command
(`pendingRequests.set(id, ...)`); the resolve/reject continuations and the
timer are represented by the originating client socket and client id. -/
structure PendingRec where
  clientSock : ℕ
  clientId : String
deriving DecidableEq, Repr

/-- The connection-handling state of the broker: the current extension socket
(`extensionWs`, a single nullable variable — at most one session can ever
be current), the per-socket `isExtension` closure flags, and the pending
map (as an ordered association list keyed by broker-generated id). -/
structure BrokerState where
  extensionWs : Option ℕ
  extFlag : List ℕ
  pending : List (String × PendingRec)
deriving DecidableEq, Repr

/-- The broker events relevant to session supersession. -/
inductive BrokerEv where
  | handshake (sock : ℕ)
  | relayRequest (brokerId : String) (rec : PendingRec)
  | extResponse (sock : ℕ) (brokerId : String)
  | closeSock (sock : ℕ)
deriving DecidableEq, Repr

/-- One broker step: the successor state plus the (brokerId, error)
rejections emitted during the step. -/
structure BrokerStep where
  state : BrokerState
  rejected : List (String × String)
deriving DecidableEq, Repr

/-- The message/close handlers of the broker from `lib/server.js`:
- a handshake sets the per-connection `isExtension` flag and makes it the
  current `extensionWs` — nothing touches `pendingRequests`;
- `send` registers a pending record when an extension socket is present,
  and rejects immediately with `Extension not connected` otherwise;
- a response on a socket whose `isExtension` flag is set resolves (removes)
  the matching pending record;
- `close` of a flagged socket nulls `extensionWs` and rejects every
  pending record with `Extension disconnected`. -/
def brokerStep (st : BrokerState) (ev : BrokerEv) : BrokerStep :=
  match ev with
  | .handshake s =>
    { state :=
        { st with
          extensionWs := some s
          extFlag := if st.extFlag.contains s then st.extFlag else s :: st.extFlag }
      rejected := [] }
  | .relayRequest id rec =>
    if st.extensionWs.isSome then
      { state := { st with pending := st.pending ++ [(id, rec)] }, rejected := [] }
    else
      { state := st, rejected := [(id, "Extension not connected")] }
  | .extResponse s id =>
    if st.extFlag.contains s then
      { state := { st with pending := st.pending.filter (fun p => p.1 ≠ id) },
        rejected := [] }
    else
      { state := st, rejected := [] }
  | .closeSock s =>
    if st.extFlag.contains s then
      { state :=
          { st with
            extensionWs := none
            pending := []
            extFlag := st.extFlag.filter (fun t => t ≠ s) }
        rejected := st.pending.map (fun p => (p.1, "Extension disconnected")) }
    else
      { state := st, rejected := [] }

/-- Run the broker over a sequence of events, accumulating rejections. -/
def brokerRun (st : BrokerState) (evs : List BrokerEv) :
    BrokerState × List (String × String) :=
  evs.foldl (fun acc ev =>
    let r := brokerStep acc.1 ev
    (r.state, acc.2 ++ r.rejected)) (st, [])

/-- The initial state of the broker. -/
def brokerInit : BrokerState := { extensionWs := none, extFlag := [], pending := [] }

/-- C4 (counterexample): extension 1 handshakes, one request is relayed
and left pending, then extension 2 handshakes and supersedes — yet the
request pending against session 1 is still pending and nothing has been
rejected, contradicting "failed with an extension-disconnected error at
supersession time". -/
theorem broker_supersede_claim_counterexample :
    (brokerRun brokerInit
      [.handshake 1, .relayRequest "r1" ⟨5, "c1"⟩, .handshake 2]).1.extensionWs
        = some 2 ∧
    (brokerRun brokerInit
      [.handshake 1, .relayRequest "r1" ⟨5, "c1"⟩, .handshake 2]).1.pending
        = [("r1", ⟨5, "c1"⟩)] ∧
    (brokerRun brokerInit
      [.handshake 1, .relayRequest "r1" ⟨5, "c1"⟩, .handshake 2]).2 = [] := by
  refine ⟨by decide, by decide, by decide⟩

/-- C4 (amended): a new handshake makes its socket the single current
extension session (the `extensionWs` cell holds at most one), but leaves
every pending request untouched and rejects nothing; requests pending
against the previous session are failed with `Extension disconnected` only
when the socket of that session closes, at which point all of them are rejected
and the pending map is cleared. -/
theorem broker_handshake_supersedes (st : BrokerState) (s t : ℕ)
    (ht : st.extFlag.contains t = true) :
    (brokerStep st (.handshake s)).state.extensionWs = some s ∧
    (brokerStep st (.handshake s)).state.pending = st.pending ∧
    (brokerStep st (.handshake s)).rejected = [] ∧
    (brokerStep st (.closeSock t)).rejected =
      st.pending.map (fun p => (p.1, "Extension disconnected")) ∧
    (brokerStep st (.closeSock t)).state.pending = [] ∧
    (brokerStep st (.closeSock t)).state.extensionWs = none := by
  have ht2 : t ∈ st.extFlag := by simpa using ht
  refine ⟨rfl, rfl, rfl, ?_, ?_, ?_⟩ <;> simp [brokerStep, ht2]

/-- C4 witness: with socket 1 flagged as extension and one pending
request, closing socket 1 rejects that request with the
extension-disconnected error. -/
theorem broker_handshake_supersedes_witness :
    (brokerStep ⟨some 1, [1], [("r1", ⟨5, "c1"⟩)]⟩ (.closeSock 1)).rejected =
      [("r1", "Extension disconnected")] := by
  have h := broker_handshake_supersedes ⟨some 1, [1], [("r1", ⟨5, "c1"⟩)]⟩
    2 1 (by decide)
  rw [h.2.2.2.1]
  decide

/-- The broadcast target computation of the broker handler for `type = "event"`
handler: `wss.clients.forEach(client => { if (client !== extensionWs &&
client.readyState === OPEN) client.send(...) })`.  `clients` is every
connected socket (including that of the extension). -/
def forwardEventTargets (clients : List ℕ) (extensionWs : Option ℕ)
    (isOpen : ℕ → Bool) : List ℕ :=
  clients.filter (fun c => (some c != extensionWs) && isOpen c)

/-- C5: an event received while socket `e` is the current extension
session is forwarded to exactly the open connected sockets other than `e`:
never to `e` itself, and to every open client. -/
theorem broker_event_fanout (clients : List ℕ) (e : ℕ) (isOpen : ℕ → Bool) :
    e ∉ forwardEventTargets clients (some e) isOpen ∧
    (∀ c, c ∈ clients → c ≠ e → isOpen c = true →
      c ∈ forwardEventTargets clients (some e) isOpen) ∧
    (∀ c, c ∈ forwardEventTargets clients (some e) isOpen →
      c ∈ clients ∧ c ≠ e ∧ isOpen c = true) := by
  refine ⟨?_, ?_, ?_⟩
  · intro hmem
    have := (List.mem_filter.mp hmem).2
    simp at this
  · intro c hc hne hopen
    exact List.mem_filter.mpr ⟨hc, by simp [hne, hopen]⟩
  · intro c hc
    have h1 := (List.mem_filter.mp hc).1
    have h2 := (List.mem_filter.mp hc).2
    simp at h2
    exact ⟨h1, h2.1, h2.2⟩

/-- C5 witness: with sockets 1 (a closed client), 2 (the extension) and 3
(an open client), the event goes to exactly socket 3. -/
theorem broker_event_fanout_witness :
    forwardEventTargets [1, 2, 3] (some 2) (fun c => c != 1) = [3] ∧
    3 ∈ forwardEventTargets [1, 2, 3] (some 2) (fun c => c != 1) := by
  refine ⟨by decide, ?_⟩
  exact (broker_event_fanout [1, 2, 3] 2 (fun c => c != 1)).2.1 3
    (by decide) (by decide) (by decide)

/-- Association lookup on a JS-object-as-list: the value of the first
pair with the given key. -/
def attrLookup (l : List (String × String)) (k : String) : Option String :=
  (l.find? fun p => p.1 = k).map Prod.snd

/-- JS object spread of two objects (`\x7b ...g, ...r \x7d`): the keys of g in
order, each key taking the value from r when r also has that key, followed
by the new keys of r. -/
def objectSpread (g r : List (String × String)) : List (String × String) :=
  g.map (fun p => ((r.find? (fun q => q.1 = p.1)).map (fun q => (p.1, q.2))).getD p)
  ++ r.filter (fun q => (g.find? (fun p => p.1 = q.1)).isNone)

/-- The avoid-merge in the broker function `send` for `human.*` actions:
selectors, classes and ids are array-spread concatenations of global then
per-request entries; attributes are the object spread of global then
per-request maps. -/
def mergeAvoid (globalAvoid reqAvoid : AvoidRuleset) : AvoidRuleset :=
  { selectors := globalAvoid.selectors ++ reqAvoid.selectors
    classes := globalAvoid.classes ++ reqAvoid.classes
    ids := globalAvoid.ids ++ reqAvoid.ids
    attributes := objectSpread globalAvoid.attributes reqAvoid.attributes }

theorem attrLookup_objectSpread (g r : List (String × String)) (k : String) :
    attrLookup (objectSpread g r) k =
      (attrLookup r k).or (attrLookup g k) := by
  unfold objectSpread attrLookup
  rw [List.find?_append, List.find?_map]
  have hproj : ∀ (x : Option (String × String)) (p : String × String),
      ((x.map fun q => (p.1, q.2)).getD p).1 = p.1 := by
    intro x p; cases x <;> rfl
  have hfun : ((fun q : String × String => decide (q.1 = k)) ∘
      fun p : String × String =>
        ((r.find? (fun q => q.1 = p.1)).map (fun q => (p.1, q.2))).getD p) =
      fun p : String × String => decide (p.1 = k) := by
    funext p
    simp only [Function.comp]
    rw [hproj]
  rw [hfun, List.find?_filter]
  cases hr : r.find? (fun q => decide (q.1 = k)) with
  | some qr =>
    have hqr : qr.1 = k := by simpa using List.find?_some hr
    cases hg : g.find? (fun p => decide (p.1 = k)) with
    | some qg =>
      have hqg : qg.1 = k := by simpa using List.find?_some hg
      simp only [Option.map_some', Option.or_some]
      rw [hqg, hr]
      rfl
    | none =>
      have hpred : (fun a : String × String =>
          decide ((g.find? fun p => decide (p.1 = a.1)).isNone = true ∧
            decide (a.1 = k) = true)) = fun a : String × String => decide (a.1 = k) := by
        funext a
        by_cases ha : a.1 = k
        · simp [ha, hg]
        · simp [ha]
      rw [hpred, hr]
      simp
  | none =>
    have hrnone : ∀ a ∈ r, ¬(a.1 = k) := fun a ha => by
      simpa using List.find?_eq_none.mp hr a ha
    cases hg : g.find? (fun p => decide (p.1 = k)) with
    | some qg =>
      have hqg : qg.1 = k := by simpa using List.find?_some hg
      simp only [Option.map_some']
      rw [show r.find? (fun q => decide (q.1 = qg.1)) = none from
        List.find?_eq_none.mpr fun a ha => by
          simp only [decide_eq_true_eq]
          exact fun h => hrnone a ha (h.trans hqg)]
      rfl
    | none =>
      rw [show r.find? (fun a : String × String =>
          decide ((g.find? fun p => decide (p.1 = a.1)).isNone = true ∧
            decide (a.1 = k) = true)) = none from
        List.find?_eq_none.mpr fun a ha => by simp [hrnone a ha]]
      simp

/-- C7 (counterexample): when the global avoid rules carry attribute rule
`x-track = "1"` and the request carries `x-track = "2"`, the merged
merged attributes are exactly `x-track = "2"` — the global rule
`x-track = "1"` does not appear in the merge, refuting union on attribute
rules. -/
theorem avoid_merge_claim_counterexample :
    ("x-track", "1") ∈
      (AvoidRuleset.mk [] [] [] [("x-track", "1")]).attributes ∧
    (mergeAvoid (AvoidRuleset.mk [] [] [] [("x-track", "1")])
        (AvoidRuleset.mk [] [] [] [("x-track", "2")])).attributes
      = [("x-track", "2")] ∧
    ("x-track", "1") ∉
      (mergeAvoid (AvoidRuleset.mk [] [] [] [("x-track", "1")])
        (AvoidRuleset.mk [] [] [] [("x-track", "2")])).attributes := by
  refine ⟨by decide, by decide, by decide⟩

/-- C7 (amended): for every `human.*` request the broker merges the global
and per-request avoid rulesets as follows — every selector, class and id
rule present in either side appears in the merged ruleset (union by
concatenation), and the attribute map is merged by key union where, on a
key present in both, the per-request value overrides the global one (so a
global attribute rule whose key the request redefines is replaced, not
kept). -/
theorem avoid_merge_union (g r : AvoidRuleset) :
    (∀ s, s ∈ (mergeAvoid g r).selectors ↔ s ∈ g.selectors ∨ s ∈ r.selectors) ∧
    (∀ s, s ∈ (mergeAvoid g r).classes ↔ s ∈ g.classes ∨ s ∈ r.classes) ∧
    (∀ s, s ∈ (mergeAvoid g r).ids ↔ s ∈ g.ids ∨ s ∈ r.ids) ∧
    (∀ k, attrLookup (mergeAvoid g r).attributes k =
      (attrLookup r.attributes k).or (attrLookup g.attributes k)) ∧
    (∀ k, (attrLookup (mergeAvoid g r).attributes k).isSome = true ↔
      (attrLookup g.attributes k).isSome = true ∨
      (attrLookup r.attributes k).isSome = true) := by
  refine ⟨?_, ?_, ?_, ?_, ?_⟩
  · intro s; simp [mergeAvoid]
  · intro s; simp [mergeAvoid]
  · intro s; simp [mergeAvoid]
  · intro k; exact attrLookup_objectSpread g.attributes r.attributes k
  · intro k
    rw [show (mergeAvoid g r).attributes =
        objectSpread g.attributes r.attributes from rfl]
    rw [attrLookup_objectSpread g.attributes r.attributes k]
    cases attrLookup r.attributes k <;> cases attrLookup g.attributes k <;>
      simp [Option.or]

/-- C7 witness: concrete merge — ids union and attribute override both
visible. -/
theorem avoid_merge_union_witness :
    ("x-track", "1") ∈
      (AvoidRuleset.mk [] [] [] [("x-track", "1")]).attributes ∧
    "promo" ∈ (mergeAvoid (AvoidRuleset.mk [] [] ["promo"] [])
      (AvoidRuleset.mk [] [] ["cta"] [])).ids ∧
    "cta" ∈ (mergeAvoid (AvoidRuleset.mk [] [] ["promo"] [])
      (AvoidRuleset.mk [] [] ["cta"] [])).ids :=
  ⟨by decide,
   ((avoid_merge_union (AvoidRuleset.mk [] [] ["promo"] [])
      (AvoidRuleset.mk [] [] ["cta"] [])).2.2.1 "promo").mpr (Or.inl (by decide)),
   ((avoid_merge_union (AvoidRuleset.mk [] [] ["promo"] [])
      (AvoidRuleset.mk [] [] ["cta"] [])).2.2.1 "cta").mpr (Or.inr (by decide))⟩

/-! ## Handle registry (content script) -/

/-- A registry entry: the current deref result of the weak reference (`none`
once the element has been collected) and the last-access timestamp. -/
structure HandleEntry where
  ref : Option ℕ
  lastAccessed : ℕ
deriving DecidableEq, Repr

/-- The handle registry: `handles` map (ordered association list) and the
monotonic `handleCounter`. -/
structure Registry where
  handles : List (String × HandleEntry)
  counter : ℕ
deriving DecidableEq, Repr

/-- Map read `handles.get(id)`. -/
def Registry.lookup (R : Registry) (id : String) : Option HandleEntry :=
  (R.handles.find? fun p => p.1 = id).map Prod.snd

/-- Map write `handles.set(id, e)`: replace the entry under `id` when present,
append otherwise. -/
def setEntry (hs : List (String × HandleEntry)) (id : String)
    (e : HandleEntry) : List (String × HandleEntry) :=
  if (hs.find? fun p => p.1 = id).isSome then
    hs.map fun p => if p.1 = id then (id, e) else p
  else
    hs ++ [(id, e)]

/-- Function `storeHandle(el)`: mint `el_<++counter>` and store a fresh weak
reference with the current time. -/
def storeHandle (R : Registry) (el : ℕ) (now : ℕ) : String × Registry :=
  let counter := R.counter + 1
  let id := "el_" ++ toString counter
  (id, { handles := setEntry R.handles id { ref := some el, lastAccessed := now }
         counter := counter })

/-- Function `getHandle(id)`: absent entry throws `Handle <id> not found`; an empty
weak reference deletes the entry and throws `Handle <id> was garbage
collected`; otherwise the access time is refreshed and the element
returned. -/
def getHandle (R : Registry) (id : String) (now : ℕ) :
    Except String ℕ × Registry :=
  match R.lookup id with
  | none => (.error ("Handle " ++ id ++ " not found"), R)
  | some entry =>
    match entry.ref with
    | none =>
      (.error ("Handle " ++ id ++ " was garbage collected"),
       { R with handles := R.handles.filter fun p => p.1 ≠ id })
    | some el =>
      (.ok el,
       { R with handles := setEntry R.handles id { entry with lastAccessed := now } })

/-- Function `cleanupStaleHandles()`: drop entries whose weak reference is empty or
whose last access is older than `now - ttl`. -/
def cleanupStaleHandles (R : Registry) (now ttl : ℕ) : Registry :=
  { R with handles :=
      R.handles.filter fun p =>
        !(p.2.ref.isNone || p.2.lastAccessed < now - ttl) }

/-- The host runtime collecting the element a handle weakly references:
the deref of the entry becomes empty.  (Everything else about GC is outside the
program.) -/
def gcClear (R : Registry) (id : String) : Registry :=
  { R with handles :=
      R.handles.map fun p => if p.1 = id then (p.1, { p.2 with ref := none }) else p }

/-- Ghost log of what was stored under each handle id (latest store wins,
matching `handles.set`). -/
def logSet (log : List (String × ℕ)) (id : String) (el : ℕ) :
    List (String × ℕ) :=
  log.filter (fun p => p.1 ≠ id) ++ [(id, el)]

/-- Ghost-log lookup. -/
def logLookup (log : List (String × ℕ)) (id : String) : Option ℕ :=
  (log.find? fun p => p.1 = id).map Prod.snd

/-- Registry states reachable from the empty registry by stores, element
collection, lookups, and sweeper runs, together with the ghost log of
stored elements. -/
inductive RegReach : Registry → List (String × ℕ) → Prop where
  | init : RegReach { handles := [], counter := 0 } []
  | store {R log el now} : RegReach R log →
      RegReach (storeHandle R el now).2 (logSet log (storeHandle R el now).1 el)
  | gc {R log id} : RegReach R log → RegReach (gcClear R id) log
  | get {R log id now} : RegReach R log → RegReach (getHandle R id now).2 log
  | cleanup {R log now ttl} : RegReach R log →
      RegReach (cleanupStaleHandles R now ttl) log

/-- The registry invariant: every element referenced by a live entry is the
one the ghost log records for that id. -/
def RegInv (R : Registry) (log : List (String × ℕ)) : Prop :=
  ∀ p ∈ R.handles, ∀ el : ℕ, p.2.ref = some el → logLookup log p.1 = some el

theorem find?_filter_key (log : List (String × ℕ)) (id id2 : String)
    (h : id2 ≠ id) :
    (log.filter fun p => p.1 ≠ id).find? (fun p => p.1 = id2) =
      log.find? (fun p => p.1 = id2) := by
  induction log with
  | nil => rfl
  | cons a l ih =>
    by_cases ha : a.1 = id
    · have ha2 : ¬(a.1 = id2) := fun hc => h (hc ▸ ha ▸ rfl)
      simp only [List.filter_cons, List.find?_cons]
      rw [if_neg (by simpa using ha)]
      rw [ih]
      cases hf : l.find? (fun p => decide (p.1 = id2)) <;> simp [List.find?, ha2, hf]
    · by_cases ha2 : a.1 = id2
      · simp only [List.filter_cons, List.find?_cons]
        rw [if_pos (by simpa using ha)]
        simp [List.find?, ha2]
      · simp only [List.filter_cons, List.find?_cons]
        rw [if_pos (by simpa using ha)]
        simp only [List.find?]
        rw [show (decide (a.1 = id2)) = false from by simpa using ha2]
        exact ih

theorem logLookup_logSet_self (log : List (String × ℕ)) (id : String) (el : ℕ) :
    logLookup (logSet log id el) id = some el := by
  unfold logLookup logSet
  rw [List.find?_append]
  rw [show (log.filter fun p => p.1 ≠ id).find? (fun p => decide (p.1 = id)) = none from
    List.find?_eq_none.mpr fun a ha => by
      have := (List.mem_filter.mp ha).2
      simpa using this]
  simp [List.find?]

theorem logLookup_logSet_ne (log : List (String × ℕ)) (id id2 : String)
    (el : ℕ) (h : id2 ≠ id) :
    logLookup (logSet log id el) id2 = logLookup log id2 := by
  unfold logLookup logSet
  rw [List.find?_append]
  rw [find?_filter_key log id id2 h]
  cases hfind : log.find? (fun p => decide (p.1 = id2)) with
  | some q => simp
  | none =>
    simp only [List.find?]
    rw [show decide (id = id2) = false from by simpa using Ne.symm h]
    rfl

theorem mem_setEntry {hs : List (String × HandleEntry)} {id : String}
    {e : HandleEntry} {p : String × HandleEntry} (hp : p ∈ setEntry hs id e) :
    (p ∈ hs ∧ p.1 ≠ id) ∨ p = (id, e) := by
  unfold setEntry at hp
  by_cases hex : (hs.find? fun q => q.1 = id).isSome
  · rw [if_pos hex] at hp
    obtain ⟨q, hq, hfq⟩ := List.mem_map.mp hp
    by_cases hqid : q.1 = id
    · right; rw [← hfq]; simp [hqid]
    · left
      rw [← hfq]
      simp [hqid]
      exact hq
  · rw [if_neg hex] at hp
    rcases List.mem_append.mp hp with h | h
    · by_cases hpid : p.1 = id
      · exfalso
        have : (hs.find? fun q => q.1 = id).isSome := by
          rw [List.find?_isSome]
          exact ⟨p, h, by simp [hpid]⟩
        exact hex this
      · left; exact ⟨h, hpid⟩
    · right; simpa using h

/-- The invariant holds in every reachable registry state. -/
theorem regInv_of_reach {R : Registry} {log : List (String × ℕ)}
    (h : RegReach R log) : RegInv R log := by
  induction h with
  | init => intro p hp; cases hp
  | @store R log el now _ ih =>
    intro p hp el2 href
    simp only [storeHandle] at hp ⊢
    rcases mem_setEntry hp with ⟨hmem, hne⟩ | heq
    · rw [logLookup_logSet_ne log _ p.1 el hne]
      exact ih p hmem el2 href
    · rw [heq] at href ⊢
      have hel : el = el2 := by simpa using href
      rw [← hel]
      simpa using logLookup_logSet_self log _ el
  | @gc R log id _ ih =>
    intro p hp el2 href
    simp only [gcClear] at hp
    obtain ⟨q, hq, hfq⟩ := List.mem_map.mp hp
    by_cases hqid : q.1 = id
    · rw [← hfq] at href
      simp [hqid] at href
    · rw [← hfq] at href ⊢
      simp only [if_neg hqid] at href ⊢
      exact ih q hq el2 href
  | @get R log id now _ ih =>
    intro p hp el2 href
    cases hlk : R.lookup id with
    | none =>
      simp only [getHandle, hlk] at hp
      exact ih p hp el2 href
    | some entry =>
      cases hentry : entry.ref with
      | none =>
        simp only [getHandle, hlk, hentry] at hp
        exact ih p (List.mem_filter.mp hp).1 el2 href
      | some elcur =>
        simp only [getHandle, hlk, hentry] at hp
        rcases mem_setEntry hp with ⟨hmem, _⟩ | heq
        · exact ih p hmem el2 href
        · have hold : (id, entry) ∈ R.handles := by
            unfold Registry.lookup at hlk
            cases hfind : R.handles.find? fun q => q.1 = id with
            | none => rw [hfind] at hlk; cases hlk
            | some q =>
              rw [hfind] at hlk
              have hq1 : q.1 = id := by simpa using List.find?_some hfind
              have hmemq := List.mem_of_find?_eq_some hfind
              have hqe : q = (id, entry) := by
                have h2 : q.2 = entry := by simpa using hlk
                cases q; simp_all
              rw [← hqe]; exact hmemq
          rw [heq] at href ⊢
          have hel : elcur = el2 := by simpa using href
          have := ih (id, entry) hold el2 (by rw [hentry, hel])
          simpa using this
  | @cleanup R log now ttl _ ih =>
    intro p hp el2 href
    simp only [cleanupStaleHandles] at hp
    exact ih p (List.mem_filter.mp hp).1 el2 href

theorem lookup_mem {R : Registry} {id : String} {entry : HandleEntry}
    (hlk : R.lookup id = some entry) : (id, entry) ∈ R.handles := by
  unfold Registry.lookup at hlk
  cases hfind : R.handles.find? fun q => q.1 = id with
  | none => rw [hfind] at hlk; cases hlk
  | some q =>
    rw [hfind] at hlk
    have hq1 : q.1 = id := by simpa using List.find?_some hfind
    have hmemq := List.mem_of_find?_eq_some hfind
    have hqe : q = (id, entry) := by
      have h2 : q.2 = entry := by simpa using hlk
      cases q; simp_all
    rw [← hqe]; exact hmemq

/-- C6: in every reachable registry state, `getHandle` on an id with no
entry (never registered, or evicted by the sweeper / an earlier gc-miss)
fails with the handle-not-found error; on an entry whose weak reference is
empty it fails with the handle-gc-collected error; and whenever it
succeeds it returns exactly the element the ghost log records as stored
under that id — never a different element and never a silent miss. -/
theorem getHandle_trichotomy (R : Registry) (log : List (String × ℕ))
    (id : String) (now : ℕ) (h : RegReach R log) :
    (R.lookup id = none →
      (getHandle R id now).1 = .error ("Handle " ++ id ++ " not found")) ∧
    (∀ entry, R.lookup id = some entry → entry.ref = none →
      (getHandle R id now).1 =
        .error ("Handle " ++ id ++ " was garbage collected")) ∧
    (∀ el, (getHandle R id now).1 = .ok el → logLookup log id = some el) := by
  refine ⟨?_, ?_, ?_⟩
  · intro hlk; simp [getHandle, hlk]
  · intro entry hlk href; simp [getHandle, hlk, href]
  · intro el hok
    cases hlk : R.lookup id with
    | none => simp [getHandle, hlk] at hok
    | some entry =>
      cases hentry : entry.ref with
      | none => simp [getHandle, hlk, hentry] at hok
      | some elc =>
        simp only [getHandle, hlk, hentry] at hok
        have helc : elc = el := by simpa using hok
        have hmem := lookup_mem hlk
        have := regInv_of_reach h (id, entry) hmem el (by rw [hentry, helc])
        simpa using this

/-- C6 witness: store element 42 in the empty registry (handle `el_1`),
then `getHandle` returns 42 and the ghost log agrees. -/
theorem getHandle_trichotomy_witness :
    (getHandle (storeHandle ⟨[], 0⟩ 42 5).2 "el_1" 9).1 = Except.ok 42 ∧
    logLookup (logSet [] (storeHandle ⟨[], 0⟩ 42 5).1 42) "el_1" = some 42 := by
  have h := (getHandle_trichotomy (storeHandle ⟨[], 0⟩ 42 5).2
    (logSet [] (storeHandle ⟨[], 0⟩ 42 5).1 42) "el_1" 9
    (RegReach.store RegReach.init)).2.2 42 rfl
  exact ⟨rfl, h⟩

/-! ## human.type timing -/

/-- A typing token of `actionHumanType`: a regular character or a
`{SpecialKey}` name. -/
inductive TypeToken where
  | ch (c : Char)
  | key (name : String)
deriving DecidableEq, Repr

/-- The tokenizer loop of `actionHumanType`, fuelled for structural
recursion (the fuel is the character count, which bounds the number of
loop iterations since each iteration consumes at least one character):
on `{`, if a later `}` leaves at least one character between them the
enclosed name becomes one key token and scanning resumes after the `}`;
otherwise the `{` is an ordinary character. -/
def tokenizeGo : ℕ → List Char → List TypeToken
  | 0, _ => []
  | _ + 1, [] => []
  | fuel + 1, c :: rest =>
    if c = '{' then
      match rest.findIdx? (fun d => d = '}') with
      | some j =>
        if 1 ≤ j then
          TypeToken.key ⟨rest.take j⟩ :: tokenizeGo fuel (rest.drop (j + 1))
        else
          TypeToken.ch c :: tokenizeGo fuel rest
      | none => TypeToken.ch c :: tokenizeGo fuel rest
    else
      TypeToken.ch c :: tokenizeGo fuel rest

/-- Tokenize a text, as `actionHumanType` does before its typing loop. -/
def tokenize (cs : List Char) : List TypeToken := tokenizeGo cs.length cs

/-- Number of regular-character tokens. -/
def charTokenCount (ts : List TypeToken) : ℕ :=
  (ts.filter fun t => match t with | .ch _ => true | .key _ => false).length

/-- The `config` values `actionHumanType` works with after applying its
defaults (80, 180, 25, 0.12, 150, 400). -/
structure TypeConfig where
  baseDelayMin : ℚ
  baseDelayMax : ℚ
  variance : ℚ
  pauseChance : ℚ
  pauseMin : ℚ
  pauseMax : ℚ
deriving DecidableEq, Repr

/-- The defaults of `actionHumanType`. -/
def defaultTypeConfig : TypeConfig :=
  { baseDelayMin := 80, baseDelayMax := 180, variance := 25,
    pauseChance := 12 / 100, pauseMin := 150, pauseMax := 400 }

/-- The `Math.random()` draws one loop iteration consumes. -/
structure TypeDraw where
  rBase : ℚ
  rMicro : ℚ
  rPause : ℚ
  rPauseLen : ℚ
deriving DecidableEq, Repr

/-- Each draw lies in [0, 1). -/
def TypeDraw.valid (d : TypeDraw) : Prop :=
  0 ≤ d.rBase ∧ d.rBase < 1 ∧ 0 ≤ d.rMicro ∧ d.rMicro < 1 ∧
  0 ≤ d.rPause ∧ d.rPause < 1 ∧ 0 ≤ d.rPauseLen ∧ d.rPauseLen < 1

/-- JS `Math.floor` on the rationals. -/
def jsFloor (q : ℚ) : ℚ := (⌊q⌋ : ℤ)

/-- The inter-token delay of `actionHumanType`:
`baseDelay = baseMin + floor(rand * (baseMax - baseMin + 1))`,
`micro = floor(rand * (variance * 2 + 1)) - variance`,
`charDelay = max(50, baseDelay + micro)`. -/
def charDelay (cfg : TypeConfig) (d : TypeDraw) : ℚ :=
  let baseDelay :=
    cfg.baseDelayMin + jsFloor (d.rBase * (cfg.baseDelayMax - cfg.baseDelayMin + 1))
  let micro := jsFloor (d.rMicro * (cfg.variance * 2 + 1)) - cfg.variance
  max 50 (baseDelay + micro)

/-- The optional thinking pause duration:
`pauseMin + floor(rand * (pauseMax - pauseMin + 1))`. -/
def pauseDelay (cfg : TypeConfig) (d : TypeDraw) : ℚ :=
  cfg.pauseMin + jsFloor (d.rPauseLen * (cfg.pauseMax - cfg.pauseMin + 1))

/-- The sleeps the typing loop performs for token `i` of `n`: always the
inter-token `charDelay`, plus — with probability `pauseChance`, and never
on the last token — the thinking pause. -/
def tokenSleeps (cfg : TypeConfig) (d : TypeDraw) (i n : ℕ) : List ℚ :=
  charDelay cfg d ::
    (if d.rPause < cfg.pauseChance ∧ i < n - 1 then [pauseDelay cfg d] else [])

/-- All sleeps of the typing loop over `n` tokens. -/
def humanTypeSleeps (cfg : TypeConfig) (draws : ℕ → TypeDraw) (n : ℕ) : List ℚ :=
  (List.range n).flatMap fun i => tokenSleeps cfg (draws i) i n

/-- Total elapsed sleeping time; `setTimeout` clamps a negative duration
to zero, hence the `max 0`. -/
def elapsedOfSleeps (ds : List ℚ) : ℚ := (ds.map fun d => max 0 d).sum

/-- Elapsed sleeping time of `actionHumanType` over a text. -/
def humanTypeElapsed (cfg : TypeConfig) (draws : ℕ → TypeDraw)
    (text : String) : ℚ :=
  elapsedOfSleeps (humanTypeSleeps cfg draws (tokenize text.data).length)

theorem jsFloor_range (r span : ℚ) (z : ℤ) (hr0 : 0 ≤ r) (hr1 : r < 1)
    (hspan : span = (z : ℚ)) (hz : 1 ≤ z) :
    0 ≤ jsFloor (r * span) ∧ jsFloor (r * span) ≤ span - 1 := by
  subst hspan
  have hspanpos : (0:ℚ) < (z : ℚ) := by exact_mod_cast hz
  constructor
  · unfold jsFloor
    have h0 : (0:ℤ) ≤ ⌊r * (z:ℚ)⌋ := Int.floor_nonneg.mpr (mul_nonneg hr0 hspanpos.le)
    exact_mod_cast h0
  · unfold jsFloor
    have hlt : ⌊r * (z:ℚ)⌋ < z := by
      rw [Int.floor_lt]
      have h1 : r * (z:ℚ) < 1 * (z:ℚ) := mul_lt_mul_of_pos_right hr1 hspanpos
      rw [one_mul] at h1
      exact h1
    have hle : ⌊r * (z:ℚ)⌋ ≤ z - 1 := by omega
    calc ((⌊r * (z:ℚ)⌋ : ℤ) : ℚ) ≤ ((z - 1 : ℤ) : ℚ) := by exact_mod_cast hle
      _ = (z : ℚ) - 1 := by push_cast; ring

theorem elapsedOfSleeps_nonneg (ds : List ℚ) : 0 ≤ elapsedOfSleeps ds := by
  unfold elapsedOfSleeps
  refine List.sum_nonneg fun a ha => ?_
  obtain ⟨d, _, rfl⟩ := List.mem_map.mp ha
  exact le_max_left 0 d

theorem elapsedOfSleeps_append (xs ys : List ℚ) :
    elapsedOfSleeps (xs ++ ys) = elapsedOfSleeps xs + elapsedOfSleeps ys := by
  unfold elapsedOfSleeps
  rw [List.map_append, List.sum_append]

theorem elapsedOfSleeps_cons_ge (d : ℚ) (rest : List ℚ) (hd : 50 ≤ d) :
    50 ≤ elapsedOfSleeps (d :: rest) := by
  have h1 : elapsedOfSleeps (d :: rest) = max 0 d + elapsedOfSleeps rest := by
    unfold elapsedOfSleeps
    simp
  rw [h1]
  have h2 := elapsedOfSleeps_nonneg rest
  have h3 : (50:ℚ) ≤ max 0 d := le_trans hd (le_max_right 0 d)
  linarith

theorem elapsed_bind_ge (f : ℕ → List ℚ) (l : List ℕ)
    (h : ∀ i ∈ l, 50 ≤ elapsedOfSleeps (f i)) :
    50 * (l.length : ℚ) ≤ elapsedOfSleeps (l.flatMap f) := by
  induction l with
  | nil => simp [elapsedOfSleeps]
  | cons a l ih =>
    rw [List.flatMap_cons, elapsedOfSleeps_append]
    have ha := h a (List.mem_cons_self a l)
    have hl := ih fun i hi => h i (List.mem_cons_of_mem a hi)
    simp only [List.length_cons]
    push_cast
    linarith

/-- C9: every inter-token delay of `human.type` is `max(50, b + m)` with
the base delay `b` drawn from `[baseDelayMin, baseDelayMax]` and the
jitter `m` from `[-variance, variance]` (for integer-valued spans, as in
every shipped config); hence every inter-token delay is at least 50 ms and
the elapsed time over a text of `n` tokens — so in particular over its `n`
character tokens — is at least `n × 50` ms. -/
theorem humanType_min_delay (cfg : TypeConfig) (draws : ℕ → TypeDraw)
    (text : String)
    (hspan : ∃ z : ℤ, 0 ≤ z ∧ cfg.baseDelayMax - cfg.baseDelayMin = (z : ℚ))
    (hvar : ∃ z : ℤ, 0 ≤ z ∧ cfg.variance = (z : ℚ))
    (hdraws : ∀ i, (draws i).valid) :
    (∀ i, 50 ≤ charDelay cfg (draws i)) ∧
    (∀ i, ∃ b m : ℚ,
      cfg.baseDelayMin ≤ b ∧ b ≤ cfg.baseDelayMax ∧
      -cfg.variance ≤ m ∧ m ≤ cfg.variance ∧
      charDelay cfg (draws i) = max 50 (b + m)) ∧
    50 * (((tokenize text.data).length : ℕ) : ℚ) ≤ humanTypeElapsed cfg draws text ∧
    50 * ((charTokenCount (tokenize text.data) : ℕ) : ℚ) ≤
      humanTypeElapsed cfg draws text := by
  obtain ⟨zs, hzs0, hzs⟩ := hspan
  obtain ⟨zv, hzv0, hzv⟩ := hvar
  have hdelay : ∀ i, 50 ≤ charDelay cfg (draws i) := fun i => le_max_left _ _
  have helapsed : 50 * (((tokenize text.data).length : ℕ) : ℚ) ≤
      humanTypeElapsed cfg draws text := by
    unfold humanTypeElapsed humanTypeSleeps
    have := elapsed_bind_ge
      (fun i => tokenSleeps cfg (draws i) i (tokenize text.data).length)
      (List.range (tokenize text.data).length)
      (fun i _ => elapsedOfSleeps_cons_ge _ _ (hdelay i))
    simpa using this
  refine ⟨hdelay, ?_, helapsed, ?_⟩
  · intro i
    obtain ⟨h1, h2, h3, h4, _, _, _, _⟩ := hdraws i
    refine ⟨cfg.baseDelayMin +
        jsFloor ((draws i).rBase * (cfg.baseDelayMax - cfg.baseDelayMin + 1)),
      jsFloor ((draws i).rMicro * (cfg.variance * 2 + 1)) - cfg.variance,
      ?_, ?_, ?_, ?_, rfl⟩
    · have := (jsFloor_range (draws i).rBase
        (cfg.baseDelayMax - cfg.baseDelayMin + 1) (zs + 1) h1 h2
        (by push_cast; rw [hzs]) (by omega)).1
      linarith
    · have := (jsFloor_range (draws i).rBase
        (cfg.baseDelayMax - cfg.baseDelayMin + 1) (zs + 1) h1 h2
        (by push_cast; rw [hzs]) (by omega)).2
      linarith
    · have := (jsFloor_range (draws i).rMicro
        (cfg.variance * 2 + 1) (2 * zv + 1) h3 h4
        (by push_cast; rw [hzv]; ring) (by omega)).1
      linarith
    · have := (jsFloor_range (draws i).rMicro
        (cfg.variance * 2 + 1) (2 * zv + 1) h3 h4
        (by push_cast; rw [hzv]; ring) (by omega)).2
      linarith
  · have hcount : (charTokenCount (tokenize text.data) : ℚ) ≤
        ((tokenize text.data).length : ℚ) := by
      exact_mod_cast List.length_filter_le _ _
    linarith

/-- C9 witness: on the text "hi" (two character tokens) with zero draws
and the default config, the elapsed typing time is at least 2 × 50 ms. -/
theorem humanType_min_delay_witness :
    (tokenize "hi".data).length = 2 ∧
    50 * (((tokenize "hi".data).length : ℕ) : ℚ) ≤
      humanTypeElapsed defaultTypeConfig (fun _ => ⟨0, 0, 0, 0⟩) "hi" := by
  refine ⟨rfl, ?_⟩
  exact (humanType_min_delay defaultTypeConfig (fun _ => ⟨0, 0, 0, 0⟩) "hi"
    ⟨100, by norm_num, by norm_num [defaultTypeConfig]⟩
    ⟨25, by norm_num, by norm_num [defaultTypeConfig]⟩
    (fun i => by norm_num [TypeDraw.valid])).2.2.1

/-! ## applyFrameworkConfig (handle-registry tuning) -/

/-- The handle-registry tuning slots of `frameworkRuntime`. -/
structure HandlesTuning where
  ttlMs : ℚ
  cleanupIntervalMs : ℚ
deriving DecidableEq, Repr

/-- The initial `frameworkRuntime.handles` (15 min TTL, 60 s sweep). -/
def defaultHandlesTuning : HandlesTuning :=
  { ttlMs := 15 * 60 * 1000, cleanupIntervalMs := 60 * 1000 }

/-- Values `Number(rawConfig.handles.ttlMs)` and the cleanup interval as
received in a `__frameworkConfig` (`notFinite` for an absent or
non-numeric field). -/
structure RawHandlesConfig where
  ttlMs : JNum
  cleanupIntervalMs : JNum
deriving DecidableEq, Repr

/-- One field update of `applyFrameworkConfig`:
`if (Number.isFinite(v) && v >= 1000) slot = v` — anything else leaves
the slot unchanged. -/
def applyTuningField (cur : ℚ) (raw : JNum) : ℚ :=
  match raw with
  | .num q => if 1000 ≤ q then q else cur
  | .notFinite => cur

/-- The `rawConfig.handles` block of `applyFrameworkConfig` (`none` when
the incoming config carries no handles object; the JSON-identity
early-return only skips configs identical to the previous one and cannot
change any value, so it is not modelled). -/
def applyHandlesConfig (cur : HandlesTuning) (raw : Option RawHandlesConfig) :
    HandlesTuning :=
  match raw with
  | none => cur
  | some h =>
    { ttlMs := applyTuningField cur.ttlMs h.ttlMs
      cleanupIntervalMs := applyTuningField cur.cleanupIntervalMs h.cleanupIntervalMs }

/-- C10: a tuning slot is changed only to a supplied finite value of at
least 1000 ms — otherwise it keeps its previous value — and therefore,
starting from the defaults, no sequence of `__frameworkConfig` commands
can ever drive `ttlMs` or `cleanupIntervalMs` below one second. -/
theorem frameworkConfig_handles_clamped :
    (∀ (cur : ℚ) (raw : JNum), applyTuningField cur raw = cur ∨
      ∃ q : ℚ, raw = .num q ∧ 1000 ≤ q ∧ applyTuningField cur raw = q) ∧
    (∀ cur : ℚ, 1000 ≤ cur → ∀ raw, 1000 ≤ applyTuningField cur raw) ∧
    (∀ cfgs : List (Option RawHandlesConfig),
      1000 ≤ (cfgs.foldl applyHandlesConfig defaultHandlesTuning).ttlMs ∧
      1000 ≤ (cfgs.foldl applyHandlesConfig defaultHandlesTuning).cleanupIntervalMs) := by
  have hfield : ∀ cur : ℚ, 1000 ≤ cur → ∀ raw, 1000 ≤ applyTuningField cur raw := by
    intro cur hcur raw
    cases raw with
    | num q =>
      simp only [applyTuningField]
      by_cases hq : 1000 ≤ q
      · rw [if_pos hq]; exact hq
      · rw [if_neg hq]; exact hcur
    | notFinite => exact hcur
  have hfold : ∀ (cfgs : List (Option RawHandlesConfig)) (cur : HandlesTuning),
      1000 ≤ cur.ttlMs → 1000 ≤ cur.cleanupIntervalMs →
      1000 ≤ (cfgs.foldl applyHandlesConfig cur).ttlMs ∧
      1000 ≤ (cfgs.foldl applyHandlesConfig cur).cleanupIntervalMs := by
    intro cfgs
    induction cfgs with
    | nil => intro cur h1 h2; exact ⟨h1, h2⟩
    | cons c cfgs ih =>
      intro cur h1 h2
      cases c with
      | none => exact ih cur h1 h2
      | some h =>
        exact ih _ (hfield cur.ttlMs h1 h.ttlMs)
          (hfield cur.cleanupIntervalMs h2 h.cleanupIntervalMs)
  refine ⟨?_, hfield, ?_⟩
  · intro cur raw
    cases raw with
    | num q =>
      by_cases hq : 1000 ≤ q
      · right; exact ⟨q, rfl, hq, by simp only [applyTuningField]; rw [if_pos hq]⟩
      · left; simp only [applyTuningField]; rw [if_neg hq]
    | notFinite => left; rfl
  · intro cfgs
    exact hfold cfgs defaultHandlesTuning (by norm_num [defaultHandlesTuning])
      (by norm_num [defaultHandlesTuning])

/-- C10 witness: a config asking for a 500 ms TTL (below the 1 s floor)
and a non-numeric cleanup interval leaves the defaults untouched. -/
theorem frameworkConfig_handles_clamped_witness :
    1000 ≤ ([some (RawHandlesConfig.mk (.num 500) .notFinite)].foldl
      applyHandlesConfig defaultHandlesTuning).ttlMs ∧
    ([some (RawHandlesConfig.mk (.num 500) .notFinite)].foldl
      applyHandlesConfig defaultHandlesTuning).ttlMs = 15 * 60 * 1000 := by
  refine ⟨(frameworkConfig_handles_clamped.2.2
    [some (RawHandlesConfig.mk (.num 500) .notFinite)]).1, ?_⟩
  norm_num [applyHandlesConfig, applyTuningField, defaultHandlesTuning]

end HumanBrowser
